import Mathlib

/-!
Verification of the content-delivery core of the human-vs-AI guessing game.

The development shallowly embeds the parts of the TypeScript sources that the
specification's claims are about:

* the SQLite-backed batch reservation endpoint
  (`src/app/api/images/batch/route.ts`, nodejs variant) together with the
  schema of `src/lib/db.ts` (`images`, `image_session_seen`);
* the client-side `GameImageManager` of `src/utils/imageManager.ts`
  (dataset-leaf resolution, pair construction, preload queue);
* the traversal-safe path resolver of `src/app/api/dataset/route.ts`;
* the difficulty policy `getDifficultyForRound`;
* the preload scheduler `warm`, which is described by the specification but
  whose implementation is not among the provided sources (modelled from the
  spec, clearly marked below).

Randomness (`ORDER BY RANDOM()`, `Math.random`) is modelled by explicit
oracle parameters that are constrained to be permutations / booleans in the
theorems, and the browser platform functions (`fetch`, `encodeURIComponent`)
are abstract function parameters.
-/

namespace HumanVsAi

/-- Decidable equality for `Except` results, so that concrete runs of the
embedded fallible operations can be checked by `decide`. -/
instance {ε α : Type} [DecidableEq ε] [DecidableEq α] : DecidableEq (Except ε α) :=
  fun a b =>
    match a, b with
    | .ok x, .ok y =>
        if h : x = y then isTrue (by rw [h])
        else isFalse (fun he => h (by cases he; rfl))
    | .error x, .error y =>
        if h : x = y then isTrue (by rw [h])
        else isFalse (fun he => h (by cases he; rfl))
    | .ok _, .error _ => isFalse (fun he => Except.noConfusion he)
    | .error _, .ok _ => isFalse (fun he => Except.noConfusion he)

/-! ## Database model

Embeds the schema of `src/lib/db.ts`: the `images` table
(`id, url, is_ai, active`, with `id` a primary key) and the
`image_session_seen` table (`session_id, image_id, seen_at`, unique on
`(session_id, image_id)`). -/

/-- A row of the `images` table (`src/lib/db.ts`, lines 30-35). -/
structure ImageRow where
  id : Nat
  url : String
  is_ai : Bool
  active : Bool
deriving DecidableEq

/-- A row of the `image_session_seen` table (`src/lib/db.ts`, lines 42-50). -/
structure SeenRow where
  session_id : Nat
  image_id : Nat
  seen_at : Nat
deriving DecidableEq

/-- The database state used by the batch reservation endpoint. -/
structure DbState where
  images : List ImageRow
  seen : List SeenRow
deriving DecidableEq

/-- Whether `(sess, img)` is recorded in `image_session_seen`
(the `id NOT IN (SELECT image_id FROM image_session_seen WHERE session_id = ?)`
subquery of the reservation transaction). -/
def seenB (st : DbState) (sess img : Nat) : Bool :=
  st.seen.any (fun e => e.session_id == sess && e.image_id == img)

/-- The rows matched by the reservation `SELECT`:
`WHERE active = 1 AND is_ai = ? AND id NOT IN (... seen for this session)`
(`src/app/api/images/batch/route.ts`, lines 126-138). -/
def qualifying (st : DbState) (sess : Nat) (isAi : Bool) : List ImageRow :=
  st.images.filter (fun r => r.active && (r.is_ai == isAi) && !(seenB st sess r.id))

/-- The `INSERT OR IGNORE INTO image_session_seen (session_id, image_id, seen_at)`:
a duplicate `(session_id, image_id)` pair is ignored, otherwise the row is
appended (lines 140-148 of the route). -/
def insertSeenOrIgnore (st : DbState) (sess img now : Nat) : DbState :=
  if seenB st sess img then st
  else { st with seen := st.seen ++ [⟨sess, img, now⟩] }

/-- The item shape returned to the client (`OutItem` in the route). -/
structure OutItem where
  id : Nat
  url : String
  isAI : Bool
deriving DecidableEq

/-- The body of the reservation transaction without failure injection:
take up to `limit` rows of the randomized qualifying order, mark each as seen,
and map the rows to `OutItem`s (lines 123-152 of the route).  `order` stands
for the result of `ORDER BY RANDOM()`; the theorems constrain it to be a
permutation of `qualifying st sess isAi`. -/
def reserveBatchTrx (st : DbState) (sess : Nat) (_isAi : Bool) (limit now : Nat)
    (order : List ImageRow) : List OutItem × DbState :=
  ((order.take limit).map (fun r => ⟨r.id, r.url, r.is_ai⟩),
   (order.take limit).foldl (fun s r => insertSeenOrIgnore s sess r.id now) st)

/-- The insert loop of the transaction body with store-failure injection:
`failAt = some i` makes the `i`-th `seenStmt.run` call throw. -/
def insertLoop (sess now : Nat) (failAt : Option Nat) :
    List ImageRow → Nat → DbState → Except String DbState
  | [], _, s => .ok s
  | r :: rs, idx, s =>
      if failAt = some idx then .error "SQLITE_ERROR"
      else insertLoop sess now failAt rs (idx + 1) (insertSeenOrIgnore s sess r.id now)

/-- The transaction body with failure injection: the `SELECT ... LIMIT` slice
followed by the marking loop. -/
def trxBody (st : DbState) (sess : Nat) (_isAi : Bool) (limit now : Nat)
    (order : List ImageRow) (failAt : Option Nat) :
    Except String (List OutItem × DbState) :=
  let rows := order.take limit
  match insertLoop sess now failAt rows 0 st with
  | .error e => .error e
  | .ok s' => .ok (rows.map (fun r => ⟨r.id, r.url, r.is_ai⟩), s')

/-- Semantics of the `db.transaction(fn)` wrapper of `better-sqlite3`: the body runs between
`BEGIN` and `COMMIT`; if the body throws, the transaction is rolled back, so
the caller observes the pre-transaction state. -/
def dbTransaction {α : Type} (st : DbState)
    (body : DbState → Except String (α × DbState)) : Except String (α × DbState) :=
  match body st with
  | .ok r => .ok r
  | .error e => .error e

/-- The `GET /api/images/batch` handler (nodejs variant of
`src/app/api/images/batch/route.ts`).  `q = none` models a `QuerySchema`
parse failure (`{ error: 'Invalid query' }`, 400); otherwise `q` carries the
validated `(session, kind = ai?, count)`.  The `catch` handler returns
status 400 (`err?.message ?? 'Bad Request'`), and by the rollback semantics
of `dbTransaction` the state reverts to `st` there.  The result is
`(http status, items, final database state)`. -/
def handleBatchGet (st : DbState) (q : Option (Nat × Bool × Nat)) (now : Nat)
    (order : List ImageRow) (failAt : Option Nat) :
    Nat × List OutItem × DbState :=
  match q with
  | none => (400, [], st)
  | some (sess, kind, count) =>
      match dbTransaction st (fun s => trxBody s sess kind count now order failAt) with
      | .ok (items, st') => (200, items, st')
      | .error _ => (400, [], st)

/-- A sequence of `k` successful reservation calls for one session/kind,
each with its own `ORDER BY RANDOM()` outcome given by the oracle `ord`.
Returns the per-call item lists and the final database state. -/
def runCalls (ord : DbState → List ImageRow) (sess : Nat) (isAi : Bool)
    (limit now : Nat) : Nat → DbState → List (List OutItem) × DbState
  | 0, st => ([], st)
  | k + 1, st =>
      let c := reserveBatchTrx st sess isAi limit now (ord st)
      let rest := runCalls ord sess isAi limit now k c.2
      (c.1 :: rest.1, rest.2)

/-! ## Difficulty policy (definitions) -/

/-- The `Difficulty` union type of `src/types/game.ts`. -/
inductive Difficulty where
  | easy
  | medium
  | hard
  | extreme
deriving DecidableEq

/-- Embeds `GameImageManager.getDifficultyForRound` (`src/utils/imageManager.ts`,
lines 222-227).  The method reads no instance state, so it is embedded as a
pure function of the round number alone. -/
def getDifficultyForRound (round : Nat) : Difficulty :=
  if round ≤ 3 then .easy
  else if round ≤ 6 then .medium
  else if round ≤ 9 then .hard
  else .extreme

/-! ## GameImageManager model (client, local-dataset mode)

Embeds `src/utils/imageManager.ts`.  The browser `fetch` of
`/api/dataset?path=...` is the oracle `fetchDs : String → Option DatasetInfo`
(`none` models a non-ok response, which makes `setLeafFolderPath` throw);
the Fisher-Yates `shuffle` driven by `Math.random` is the oracle
`shuf : List Nat → List Nat` (constrained to be a permutation in the
theorems); `encodeURIComponent` is the abstract platform function `enc`;
the `Math.random() < 0.5` coin of `getNextPairAsync` is the `flip`
parameter. -/

/-- The `GameImage` interface of `src/types/game.ts`. -/
structure GameImage where
  id : String
  url : String
  isAI : Bool
  source : String
  round : Nat
  difficulty : Difficulty
deriving DecidableEq

/-- The `GameImagePair` interface of `src/types/game.ts`; `images` is the
two-element `[left, right]` tuple. -/
structure GameImagePair where
  ai : GameImage
  human : GameImage
  round : Nat
  difficulty : Difficulty
  aiIndex : Nat
  images : GameImage × GameImage
deriving DecidableEq

/-- Reading `images[i]` for `i ∈ {0, 1}`. -/
def imgAt (p : GameImagePair) (i : Nat) : GameImage :=
  if i = 0 then p.images.1 else p.images.2

/-- The `files` payload of the dataset response consumed by
`setLeafFolderPath` (`DatasetInfo` in `imageManager.ts`). -/
structure DatasetInfo where
  ai_generated : List String
  human : List String
deriving DecidableEq

/-- The mutable fields of `GameImageManager`.  The two `Record<number, ...>`
extension maps are association lists with last-write-wins lookup. -/
structure ManagerState where
  baseLeafPath : Option String
  preloadPairQueue : List GameImagePair
  availableNumbers : List Nat
  aiExtByNum : List (Nat × String)
  humanExtByNum : List (Nat × String)
deriving DecidableEq

/-- Splitting a character list at every occurrence of `sep`; the JS
`String.prototype.split` / node path segmentation on one-character
separators.  `""` splits to `[""]`, exactly as in JS. -/
def splitOnChar (sep : Char) (l : List Char) : List (List Char) :=
  l.foldr
    (fun ch acc =>
      if ch = sep then [] :: acc
      else
        match acc with
        | [] => [[ch]]
        | hd :: tl => (ch :: hd) :: tl)
    [[]]

/-- String-level wrapper of `splitOnChar`. -/
def splitString (sep : Char) (s : String) : List String :=
  (splitOnChar sep s.toList).map (fun l => ⟨l⟩)

/-- JS `Number(...)` on a string of decimal digits. -/
def digitsToNat (l : List Char) : Nat :=
  l.foldl (fun n c => n * 10 + (c.toNat - 48)) 0

/-- Lookup in a `Record<number, string>` model. -/
def recLookup (r : List (Nat × String)) (n : Nat) : Option String :=
  (r.find? (fun e => e.1 == n)).map (fun e => e.2)

/-- Overwriting update of a `Record<number, string>` model (prepend, so that
`recLookup` sees the latest write, as JS assignment does). -/
def recSet (r : List (Nat × String)) (n : Nat) (v : String) : List (Nat × String) :=
  (n, v) :: r

/-- The regex `^(\d+)\.(png|jpg|jpeg)$/i` of `numFrom`
(`imageManager.ts`, lines 66-69): a numeric stem, a dot, and a whitelisted
extension (lower-cased).  A name with more or fewer than one dot, a
non-numeric stem, or an unknown extension yields `none`. -/
def numFrom (name : String) : Option (Nat × String) :=
  match splitOnChar '.' name.toList with
  | [stem, ext] =>
      if stem.length > 0 && stem.all Char.isDigit then
        let e : String := ⟨ext.map Char.toLower⟩
        if e = "png" ∨ e = "jpg" ∨ e = "jpeg" then some (digitsToNat stem, e)
        else none
      else none
  | _ => none

/-- One side of the stem collection loops of `setLeafFolderPath`
(lines 71-89): accumulate, in first-seen order, the stems whose parsed
extension is in `allowed`, and record the extension per stem. -/
def collectSide (allowed : List String) (files : List String) :
    List Nat × List (Nat × String) :=
  files.foldl
    (fun acc f =>
      match numFrom f with
      | some (n, e) =>
          if e ∈ allowed then
            ((if n ∈ acc.1 then acc.1 else acc.1 ++ [n]), recSet acc.2 n e)
          else acc
      | none => acc)
    ([], [])

/-- The intersection step of `setLeafFolderPath` (lines 91-95), exposed under
the specification's name `derivePairableIds`: AI-side stems are restricted to
the canonical `png`, human-side stems to the `jpg`/`jpeg` whitelist, and the
result keeps exactly the stems present on both sides. -/
def derivePairableIds (aiList humanList : List String) : List Nat :=
  let aiNums := (collectSide ["png"] aiList).1
  let humanNums := (collectSide ["jpg", "jpeg"] humanList).1
  aiNums.filter (fun n => n ∈ humanNums)

/-- The `replace(/^\/+|\/+$/g, '')` trim applied to leaf paths. -/
def trimSlashes (s : String) : String :=
  ⟨((s.toList.dropWhile (fun c => c = '/')).reverse.dropWhile (fun c => c = '/')).reverse⟩

/-- Embeds `GameImageManager.setLeafFolderPath` (lines 46-110): trim the leaf path,
fetch the dataset listing, derive the pairable stems and their extensions,
and install a shuffled copy; a failed fetch or an empty intersection throws
(`Except.error`).  On the throwing paths the TypeScript object keeps its
partially reset fields; the model returns only the error, which is all the
claims need. -/
def setLeafFolderPath (fetchDs : String → Option DatasetInfo)
    (shuf : List Nat → List Nat) (st : ManagerState) (leafPath : String) :
    Except String ManagerState :=
  let base := trimSlashes leafPath
  match fetchDs base with
  | none => .error ("Failed to read dataset at " ++ base)
  | some data =>
      let aiSide := collectSide ["png"] data.ai_generated
      let humanSide := collectSide ["jpg", "jpeg"] data.human
      let both := aiSide.1.filter (fun n => n ∈ humanSide.1)
      if both.isEmpty then .error "Selected dataset has no matching numbered pairs."
      else
        .ok { baseLeafPath := some base
              preloadPairQueue := []
              availableNumbers := shuf both
              aiExtByNum := aiSide.2
              humanExtByNum := humanSide.2 }

/-- Embeds `GameImageManager.buildUrl` (lines 242-250): URL under `/data_set/...`
with each segment passed through `encodeURIComponent` (the abstract `enc`). -/
def buildUrl (enc : String → String) (leafPath : Option String)
    (segment : String) (n : Nat) (ext : String) : String :=
  let leaf := leafPath.getD ""
  let parts :=
    ("data_set" :: (splitString '/' leaf ++ [segment, toString n ++ "." ++ ext])).map enc
  "/" ++ String.intercalate "/" parts

/-- Embeds `GameImageManager.getNextPair` (lines 129-131):
`this.preloadPairQueue.shift() ?? null`. -/
def getNextPair (st : ManagerState) : Option GameImagePair × ManagerState :=
  match st.preloadPairQueue with
  | [] => (none, st)
  | p :: rest => (some p, { st with preloadPairQueue := rest })

/-- The pair construction of `getNextPairAsync` (lines 145-180): the AI
image (`isAI = true`, URL under the `ai_generated` segment with the recorded
extension defaulting to `png`), the human image (`isAI = false`, URL under
the `human` segment defaulting to `jpg`), both at stem `n`; the AI slot index
is 0 or 1 from the `Math.random() < 0.5` coin `flip`, and `images` places
the two accordingly. -/
def mkPairFrom (enc : String → String) (s : ManagerState) (n round : Nat)
    (flip : Bool) : GameImagePair :=
  let difficulty := getDifficultyForRound round
  let aiImg : GameImage :=
    { id := "ai-" ++ toString n ++ "-" ++ toString round
      url := buildUrl enc s.baseLeafPath "ai_generated" n
        ((recLookup s.aiExtByNum n).getD "png")
      isAI := true
      source := "local"
      round := round
      difficulty := difficulty }
  let humanImg : GameImage :=
    { id := "human-" ++ toString n ++ "-" ++ toString round
      url := buildUrl enc s.baseLeafPath "human" n
        ((recLookup s.humanExtByNum n).getD "jpg")
      isAI := false
      source := "local"
      round := round
      difficulty := difficulty }
  let aiIndex : Nat := if flip then 0 else 1
  let images := if aiIndex = 0 then (aiImg, humanImg) else (humanImg, aiImg)
  { ai := aiImg
    human := humanImg
    round := round
    difficulty := difficulty
    aiIndex := aiIndex
    images := images }

/-- Embeds `GameImageManager.getNextPairAsync` (lines 133-181): `null` when no leaf
is selected; a re-derivation of the leaf when `availableNumbers` is
exhausted; otherwise the head stem is consumed and the AI/human pair is
built by `mkPairFrom`. -/
def getNextPairAsync (fetchDs : String → Option DatasetInfo)
    (shuf : List Nat → List Nat) (enc : String → String) (flip : Bool)
    (st : ManagerState) (round : Nat) :
    Except String (Option GameImagePair × ManagerState) :=
  match st.baseLeafPath with
  | none => .ok (none, st)
  | some leaf =>
      match (match st.availableNumbers.isEmpty with
             | true => setLeafFolderPath fetchDs shuf st leaf
             | false => .ok st) with
      | .error e => .error e
      | .ok s =>
          match s.availableNumbers with
          | [] => .ok (none, s)
          | n :: rest =>
              .ok (some (mkPairFrom enc s n round flip),
                   { s with availableNumbers := rest })

/-- A sequence of `k` `getNextPairAsync` calls starting at call index `i`
(the index feeds the `flips`/`rounds` streams); the produced pairs are
collected in order. -/
def runNext (fetchDs : String → Option DatasetInfo) (shuf : List Nat → List Nat)
    (enc : String → String) (flips : Nat → Bool) (rounds : Nat → Nat) :
    Nat → Nat → ManagerState → Except String (List GameImagePair × ManagerState)
  | _, 0, st => .ok ([], st)
  | i, k + 1, st =>
      match getNextPairAsync fetchDs shuf enc (flips i) st (rounds i) with
      | .error e => .error e
      | .ok c =>
          match runNext fetchDs shuf enc flips rounds (i + 1) k c.2 with
          | .error e => .error e
          | .ok rest => .ok (c.1.toList ++ rest.1, rest.2)

/-! ## Dataset route path resolution

Embeds `safeJoin` of `src/app/api/dataset/route.ts` (lines 12-19).  Absolute
posix paths are segment lists (the list `["a", "b"]` stands for `/a/b`).
`path.join(root, part)` concatenates and normalizes, which on segments is
`normJoin`; `path.relative(root, p)` for two absolute paths drops the common
prefix and prepends one `..` per remaining segment of `root`, which is
`relativeSegs` (for two absolute posix inputs the result is never itself
absolute, so the route's `path.isAbsolute(rel)` test is constantly false and
is omitted).  The JS `rel.startsWith('..')` check inspects the first two
characters of the joined relative path; since `/` separates segments, it is
equivalent to the first segment of `rel` starting with the two characters
`..`, which is how `relStartsWithDotDot` renders it. -/

/-- Split a request path into segments, as `path.join` does with `/`. -/
def splitPath (s : String) : List String := splitString '/' s

/-- Segment-level `path.join(root, parts...)` + normalization for an absolute
root: empty and `.` segments vanish, `..` pops (and cannot climb above the
filesystem root), anything else is appended. -/
def normJoin (root : List String) (parts : List String) : List String :=
  parts.foldl
    (fun acc seg =>
      if seg = "" ∨ seg = "." then acc
      else if seg = ".." then acc.dropLast
      else acc ++ [seg])
    root

/-- Length of the longest common prefix of two segment lists. -/
def commonPrefixLen : List String → List String → Nat
  | a :: as, b :: bs => if a = b then commonPrefixLen as bs + 1 else 0
  | _, _ => 0

/-- Computes `path.relative` between two absolute normalized segment lists. -/
def relativeSegs (root p : List String) : List String :=
  let c := commonPrefixLen root p
  List.replicate (root.length - c) ".." ++ p.drop c

/-- JS `String.prototype.startsWith` as a character-prefix test. -/
def jsStartsWith (s pre : String) : Bool :=
  pre.toList.isPrefixOf s.toList

/-- The check `rel.startsWith('..')` on the `/`-joined relative path, rendered on the
first segment (see the section comment). -/
def relStartsWithDotDot (rel : List String) : Bool :=
  match rel with
  | [] => false
  | s :: _ => jsStartsWith s ".."

/-- Embeds `safeJoin(root, reqPath)` (route lines 12-19): join + normalize, compute
the relative path from the root, and throw `Invalid path` when it starts
with `..`. -/
def safeJoin (root : List String) (parts : List String) :
    Except String (List String) :=
  if relStartsWithDotDot (relativeSegs root (normJoin root parts)) then .error "Invalid path"
  else .ok (normJoin root parts)

/-- The base-directory selection of the route's `GET` handler (line 34):
`reqPath ? safeJoin(ROOT, reqPath) : ROOT`, after the leading/trailing slash
trim. -/
def resolveBase (root : List String) (reqPath : String) : Except String (List String) :=
  let trimmed := trimSlashes reqPath
  if trimmed = "" then .ok root
  else safeJoin root (splitPath trimmed)

/-! ## PreloadScheduler (modelled from the spec) -/

/-- Modelled from the spec: `PreloadScheduler.warm(urls, timeoutMs)` is
specified in §4.5 but its implementation is not among the provided sources.
Per the spec, a failed probe is retried exactly once with the effect query
parameters (blur/grayscale flags) stripped from the URL; stripping the query
flags removes everything from the `?` on. -/
def stripEffects (url : String) : String :=
  ⟨url.toList.takeWhile (fun c => c ≠ '?')⟩

/-- Modelled from the spec: the outcome of one settled probe — the image
either loaded (possibly from the degraded retry URL) or was given up on
silently.  There is no error alternative: a probe never rejects. -/
inductive ProbeOutcome where
  | loaded (url : String)
  | gaveUp
deriving DecidableEq

/-- Modelled from the spec: one probe against the browser image cache, with
the platform load behaviour abstracted as `loads : String → Bool` (whether a
URL loads within the timeout).  On a load error the probe retries exactly
once with effects stripped, then gives up silently. -/
def probe (loads : String → Bool) (u : String) : ProbeOutcome :=
  if loads u then .loaded u
  else if loads (stripEffects u) then .loaded (stripEffects u)
  else .gaveUp

/-- Modelled from the spec: `warm` fans out one probe per URL and resolves
once every probe has settled; the aggregate is the list of outcomes. -/
def warm (loads : String → Bool) (urls : List String) : List ProbeOutcome :=
  urls.map (probe loads)

/-- Number of successful probes: how much the client queue grows after a
`warm` batch. -/
def warmQueueGrowth (outs : List ProbeOutcome) : Nat :=
  (outs.filter (fun o => match o with | .loaded _ => true | .gaveUp => false)).length

/-! ## Concrete scenarios used by witnesses and counterexamples -/

/-- A one-pair dataset leaf (`ai_generated/1.png`, `human/1.jpg`) served at
path `a`, used to exhibit the re-derivation behaviour of
`getNextPairAsync`. -/
def exFetchC2 : String → Option DatasetInfo :=
  fun s => if s = "a" then some ⟨["1.png"], ["1.jpg"]⟩ else none

/-- The manager state after selecting leaf `a` of `exFetchC2`. -/
def exStateC2 : ManagerState :=
  { baseLeafPath := some "a"
    preloadPairQueue := []
    availableNumbers := [1]
    aiExtByNum := [(1, "png")]
    humanExtByNum := [(1, "jpg")] }

/-- A one-stem manager state used to instantiate the pair-coherence theorem. -/
def exStateC10 : ManagerState :=
  { baseLeafPath := some "a"
    preloadPairQueue := []
    availableNumbers := [1]
    aiExtByNum := [(1, "png")]
    humanExtByNum := [(1, "jpg")] }

/-- The pair `getNextPairAsync` produces from `exStateC10` with `flip = true`
at round 1. -/
def exPairC10 : GameImagePair :=
  { ai := { id := "ai-1-1", url := "/data_set/a/ai_generated/1.png", isAI := true
            source := "local", round := 1, difficulty := .easy }
    human := { id := "human-1-1", url := "/data_set/a/human/1.jpg", isAI := false
               source := "local", round := 1, difficulty := .easy }
    round := 1
    difficulty := .easy
    aiIndex := 0
    images := ({ id := "ai-1-1", url := "/data_set/a/ai_generated/1.png", isAI := true
                 source := "local", round := 1, difficulty := .easy },
               { id := "human-1-1", url := "/data_set/a/human/1.jpg", isAI := false
                 source := "local", round := 1, difficulty := .easy }) }

/-! # Theorems -/

/-! ## General list helpers -/

/-- Mapping commutes with `any`. -/
theorem any_map_poly {α β : Type} (f : α → β) (p : β → Bool) (l : List α) :
    (l.map f).any p = l.any (fun a => p (f a)) := by
  induction l with
  | nil => rfl
  | cons a l ih => simp [List.any_cons, ih]

/-! ## Database lemmas -/

/-- Inserting with `OR IGNORE` leaves the `images` table untouched. -/
theorem images_insertSeenOrIgnore (st : DbState) (sess img now : Nat) :
    (insertSeenOrIgnore st sess img now).images = st.images := by
  unfold insertSeenOrIgnore
  split <;> rfl

/-- Value of `seenB` after one `INSERT OR IGNORE`. -/
theorem seenB_insertSeenOrIgnore (st : DbState) (sess img now j i : Nat) :
    seenB (insertSeenOrIgnore st sess img now) j i
      = (seenB st j i || (sess == j && img == i)) := by
  unfold insertSeenOrIgnore
  by_cases h : seenB st sess img = true
  · rw [if_pos h]
    cases hb : (sess == j && img == i)
    · simp
    · simp only [Bool.and_eq_true, beq_iff_eq] at hb
      obtain ⟨hj, hi⟩ := hb
      subst hj
      subst hi
      simp [h]
  · rw [if_neg h]
    simp [seenB, List.any_append]

/-- The `images` table is untouched by the marking loop. -/
theorem images_foldl_insert (sess now : Nat) (rows : List ImageRow) :
    ∀ st : DbState,
      (rows.foldl (fun s r => insertSeenOrIgnore s sess r.id now) st).images = st.images := by
  induction rows with
  | nil => intro st; rfl
  | cons r rs ih =>
      intro st
      simp [List.foldl_cons, ih, images_insertSeenOrIgnore]

/-- Value of `seenB` after the whole marking loop: exactly the ids of the marked rows
become seen for the marking session. -/
theorem seenB_foldl_insert (sess now : Nat) (rows : List ImageRow) :
    ∀ (st : DbState) (j i : Nat),
      seenB (rows.foldl (fun s r => insertSeenOrIgnore s sess r.id now) st) j i
        = (seenB st j i || (sess == j && rows.any (fun r => r.id == i))) := by
  induction rows with
  | nil => intro st j i; simp
  | cons r rs ih =>
      intro st j i
      simp only [List.foldl_cons, List.any_cons]
      rw [ih, seenB_insertSeenOrIgnore]
      cases seenB st j i <;> cases (sess == j) <;> cases (r.id == i) <;>
        cases rs.any (fun r => r.id == i) <;> simp

/-- Membership in the reservation `SELECT` result. -/
theorem mem_qualifying {st : DbState} {sess : Nat} {isAi : Bool} {r : ImageRow} :
    r ∈ qualifying st sess isAi
      ↔ r ∈ st.images ∧ r.active = true ∧ r.is_ai = isAi ∧ seenB st sess r.id = false := by
  simp only [qualifying, List.mem_filter, Bool.and_eq_true, beq_iff_eq,
    Bool.not_eq_true']
  tauto

/-- The `SELECT` result has duplicate-free ids because `images.id` is a
primary key. -/
theorem qualifying_ids_nodup (st : DbState) (sess : Nat) (isAi : Bool)
    (h : (st.images.map ImageRow.id).Nodup) :
    ((qualifying st sess isAi).map ImageRow.id).Nodup :=
  List.Nodup.sublist (List.Sublist.map _ (List.filter_sublist _)) h

/-- Growing the seen ledger only shrinks the `SELECT` result. -/
theorem qualifying_anti (st st' : DbState) (sess : Nat) (isAi : Bool)
    (himg : st'.images = st.images)
    (hmono : ∀ i, seenB st sess i = true → seenB st' sess i = true) :
    ∀ r, r ∈ qualifying st' sess isAi → r ∈ qualifying st sess isAi := by
  intro r hr
  rw [mem_qualifying] at hr ⊢
  obtain ⟨h1, h2, h3, h4⟩ := hr
  refine ⟨himg ▸ h1, h2, h3, ?_⟩
  cases hseen : seenB st sess r.id
  · rfl
  · exact absurd (hmono _ hseen) (by simp [h4])

/-- A session with no ledger rows has seen nothing. -/
theorem seenB_of_fresh (st : DbState) (sess : Nat)
    (hfresh : ∀ e ∈ st.seen, e.session_id ≠ sess) :
    ∀ i, seenB st sess i = false := by
  intro i
  rw [seenB]
  rw [List.any_eq_false]
  intro e he
  simp only [Bool.and_eq_true, beq_iff_eq, not_and]
  intro hj
  exact absurd hj (hfresh e he)

/-- Specification of one reservation transaction, under the constraint that
`order` is the `ORDER BY RANDOM()` permutation of the qualifying rows. -/
theorem reserveBatchTrx_spec (st : DbState) (sess : Nat) (isAi : Bool)
    (limit now : Nat) (order : List ImageRow)
    (horder : order.Perm (qualifying st sess isAi))
    (hids : (st.images.map ImageRow.id).Nodup) :
    (reserveBatchTrx st sess isAi limit now order).2.images = st.images ∧
    (∀ it ∈ (reserveBatchTrx st sess isAi limit now order).1,
        ∃ r ∈ qualifying st sess isAi, r.id = it.id) ∧
    ((reserveBatchTrx st sess isAi limit now order).1.map OutItem.id).Nodup ∧
    (∀ i, seenB (reserveBatchTrx st sess isAi limit now order).2 sess i
        = (seenB st sess i
            || (reserveBatchTrx st sess isAi limit now order).1.any (fun it => it.id == i))) ∧
    (1 ≤ limit →
      ((reserveBatchTrx st sess isAi limit now order).1 = []
        ↔ qualifying st sess isAi = [])) := by
  refine ⟨images_foldl_insert _ _ _ _, ?_, ?_, ?_, ?_⟩
  · intro it hit
    simp only [reserveBatchTrx, List.mem_map] at hit
    obtain ⟨r, hr, hrefl⟩ := hit
    refine ⟨r, horder.mem_iff.mp (List.take_subset _ _ hr), ?_⟩
    rw [← hrefl]
  · have h1 : (order.map ImageRow.id).Nodup :=
      (List.Perm.nodup_iff (horder.map ImageRow.id)).mpr
        (qualifying_ids_nodup st sess isAi hids)
    have h2 : ((order.take limit).map ImageRow.id).Nodup := by
      rw [List.map_take]
      exact List.Nodup.sublist (List.take_sublist _ _) h1
    have h3 : (reserveBatchTrx st sess isAi limit now order).1.map OutItem.id
        = (order.take limit).map ImageRow.id := by
      simp [reserveBatchTrx, List.map_map]
      rfl
    rw [h3]
    exact h2
  · intro i
    have h4 := seenB_foldl_insert sess now (order.take limit) st sess i
    simp only [beq_self_eq_true, Bool.true_and] at h4
    have h5 : (reserveBatchTrx st sess isAi limit now order).1.any (fun it => it.id == i)
        = (order.take limit).any (fun r => r.id == i) := by
      simp only [reserveBatchTrx]
      rw [any_map_poly]
    rw [h5]
    exact h4
  · intro hlim
    simp only [reserveBatchTrx]
    rw [List.map_eq_nil_iff, List.take_eq_nil_iff]
    constructor
    · intro h
      rcases h with h | h
      · omega
      · exact List.Perm.eq_nil (h ▸ horder).symm
    · intro h
      right
      exact List.Perm.eq_nil (h ▸ horder)

/-- Value of `seenB` after one reservation call (no randomness constraint needed). -/
theorem reserveBatchTrx_seenB (st : DbState) (sess : Nat) (isAi : Bool)
    (limit now : Nat) (order : List ImageRow) :
    ∀ i, seenB (reserveBatchTrx st sess isAi limit now order).2 sess i
        = (seenB st sess i
            || (reserveBatchTrx st sess isAi limit now order).1.any (fun it => it.id == i)) := by
  intro i
  have h4 := seenB_foldl_insert sess now (order.take limit) st sess i
  simp only [beq_self_eq_true, Bool.true_and] at h4
  have h5 : (reserveBatchTrx st sess isAi limit now order).1.any (fun it => it.id == i)
      = (order.take limit).any (fun r => r.id == i) := by
    simp only [reserveBatchTrx]
    rw [any_map_poly]
  rw [h5]
  exact h4

/-- The reservation call leaves the catalog untouched. -/
theorem reserveBatchTrx_images (st : DbState) (sess : Nat) (isAi : Bool)
    (limit now : Nat) (order : List ImageRow) :
    (reserveBatchTrx st sess isAi limit now order).2.images = st.images :=
  images_foldl_insert _ _ _ _

/-- With a positive `LIMIT`, the reservation call returns an empty batch
exactly when the session has exhausted the active catalog of its kind. -/
theorem reserveBatchTrx_empty_iff (st : DbState) (sess : Nat) (isAi : Bool)
    (limit now : Nat) (order : List ImageRow)
    (horder : order.Perm (qualifying st sess isAi)) (hlim : 1 ≤ limit) :
    ((reserveBatchTrx st sess isAi limit now order).1 = []
      ↔ qualifying st sess isAi = []) := by
  simp only [reserveBatchTrx]
  rw [List.map_eq_nil_iff, List.take_eq_nil_iff]
  constructor
  · intro h
    rcases h with h | h
    · omega
    · exact List.Perm.eq_nil (h ▸ horder).symm
  · intro h
    right
    exact List.Perm.eq_nil (h ▸ horder)

/-- The final catalog after a run of reservation calls is the initial one. -/
theorem runCalls_images (ord : DbState → List ImageRow) (sess : Nat) (isAi : Bool)
    (limit now : Nat) :
    ∀ (k : Nat) (st : DbState),
      (runCalls ord sess isAi limit now k st).2.images = st.images := by
  intro k
  induction k with
  | zero => intro st; rfl
  | succ k ih =>
      intro st
      show (runCalls ord sess isAi limit now k
          (reserveBatchTrx st sess isAi limit now (ord st)).2).2.images = st.images
      rw [ih, reserveBatchTrx_images]

/-- Once the session has exhausted its catalog, every further call returns an
empty batch and changes nothing. -/
theorem runCalls_fixpoint (ord : DbState → List ImageRow) (sess : Nat) (isAi : Bool)
    (limit now : Nat) (hord : ∀ s, (ord s).Perm (qualifying s sess isAi)) :
    ∀ (k : Nat) (st : DbState), qualifying st sess isAi = [] →
      runCalls ord sess isAi limit now k st = (List.replicate k [], st) := by
  intro k
  induction k with
  | zero => intro st _; rfl
  | succ k ih =>
      intro st hq
      have hnil : ord st = [] := List.Perm.eq_nil (hq ▸ hord st)
      show ((reserveBatchTrx st sess isAi limit now (ord st)).1
          :: (runCalls ord sess isAi limit now k
              (reserveBatchTrx st sess isAi limit now (ord st)).2).1,
          (runCalls ord sess isAi limit now k
              (reserveBatchTrx st sess isAi limit now (ord st)).2).2)
        = (List.replicate (k + 1) [], st)
      rw [hnil]
      have hC : reserveBatchTrx st sess isAi limit now [] = ([], st) := by
        simp [reserveBatchTrx]
      rw [hC, ih st hq, List.replicate_succ]

/-- Value of `seenB` across a run: exactly the returned ids get marked. -/
theorem runCalls_seenB (ord : DbState → List ImageRow) (sess : Nat) (isAi : Bool)
    (limit now : Nat) :
    ∀ (k : Nat) (st : DbState) (i : Nat),
      seenB (runCalls ord sess isAi limit now k st).2 sess i
        = (seenB st sess i
            || (runCalls ord sess isAi limit now k st).1.flatten.any
                (fun it => it.id == i)) := by
  intro k
  induction k with
  | zero => intro st i; simp [runCalls]
  | succ k ih =>
      intro st i
      show seenB (runCalls ord sess isAi limit now k
          (reserveBatchTrx st sess isAi limit now (ord st)).2).2 sess i = _
      rw [ih]
      rw [reserveBatchTrx_seenB]
      show _ = (seenB st sess i
        || ((reserveBatchTrx st sess isAi limit now (ord st)).1
            :: (runCalls ord sess isAi limit now k
                (reserveBatchTrx st sess isAi limit now (ord st)).2).1).flatten.any
              (fun it => it.id == i))
      rw [List.flatten_cons, List.any_append]
      cases seenB st sess i <;> simp [Bool.or_assoc]

/-- Soundness and freshness of the joined results of a run: every returned id
comes from a row that qualified at the start of the run, and no id is ever
returned twice. -/
theorem runCalls_flatten_spec (ord : DbState → List ImageRow) (sess : Nat)
    (isAi : Bool) (limit now : Nat)
    (hord : ∀ s, (ord s).Perm (qualifying s sess isAi)) :
    ∀ (k : Nat) (st : DbState), (st.images.map ImageRow.id).Nodup →
      (∀ it ∈ (runCalls ord sess isAi limit now k st).1.flatten,
          ∃ r ∈ qualifying st sess isAi, r.id = it.id) ∧
      ((runCalls ord sess isAi limit now k st).1.flatten.map OutItem.id).Nodup := by
  intro k
  induction k with
  | zero => intro st _; exact ⟨by intro it hit; simp [runCalls] at hit, by simp [runCalls]⟩
  | succ k ih =>
      intro st hids
      obtain ⟨hC_img, hC_mem, hC_nodup, hC_seen, _⟩ :=
        reserveBatchTrx_spec st sess isAi limit now (ord st) (hord st) hids
      have hids' : ((reserveBatchTrx st sess isAi limit now (ord st)).2.images.map
          ImageRow.id).Nodup := by rw [hC_img]; exact hids
      obtain ⟨ihmem, ihnodup⟩ :=
        ih (reserveBatchTrx st sess isAi limit now (ord st)).2 hids'
      have hmono : ∀ i, seenB st sess i = true →
          seenB (reserveBatchTrx st sess isAi limit now (ord st)).2 sess i = true := by
        intro i hi
        rw [reserveBatchTrx_seenB, hi]
        rfl
      have hflat : (runCalls ord sess isAi limit now (k + 1) st).1.flatten
          = (reserveBatchTrx st sess isAi limit now (ord st)).1
            ++ (runCalls ord sess isAi limit now k
                (reserveBatchTrx st sess isAi limit now (ord st)).2).1.flatten := by
        show ((reserveBatchTrx st sess isAi limit now (ord st)).1
            :: (runCalls ord sess isAi limit now k
                (reserveBatchTrx st sess isAi limit now (ord st)).2).1).flatten = _
        rw [List.flatten_cons]
      constructor
      · intro it hit
        rw [hflat, List.mem_append] at hit
        rcases hit with hit | hit
        · exact hC_mem it hit
        · obtain ⟨r, hr, hrid⟩ := ihmem it hit
          exact ⟨r, qualifying_anti st _ sess isAi hC_img hmono r hr, hrid⟩
      · rw [hflat, List.map_append]
        refine List.Nodup.append hC_nodup ihnodup ?_
        intro i hiC hiR
        obtain ⟨itC, hitC, hitC_id⟩ := List.mem_map.mp hiC
        obtain ⟨itR, hitR, hitR_id⟩ := List.mem_map.mp hiR
        obtain ⟨r, hrq, hr_id⟩ := ihmem itR hitR
        have hr_unseen : seenB (reserveBatchTrx st sess isAi limit now (ord st)).2 sess i
            = false := by
          have := (mem_qualifying.mp hrq).2.2.2
          rw [hr_id, hitR_id] at this
          exact this
        have hr_seen : seenB (reserveBatchTrx st sess isAi limit now (ord st)).2 sess i
            = true := by
          rw [reserveBatchTrx_seenB]
          have hany : (reserveBatchTrx st sess isAi limit now (ord st)).1.any
              (fun it => it.id == i) = true := by
            rw [List.any_eq_true]
            exact ⟨itC, hitC, by rw [hitC_id]; exact beq_self_eq_true i⟩
          rw [hany]
          cases seenB st sess i <;> rfl
        rw [hr_unseen] at hr_seen
        exact Bool.false_ne_true hr_seen

/-- Once some call in a run comes back empty, the final state is exhausted. -/
theorem runCalls_exhausted (ord : DbState → List ImageRow) (sess : Nat)
    (isAi : Bool) (limit now : Nat)
    (hord : ∀ s, (ord s).Perm (qualifying s sess isAi)) (hlim : 1 ≤ limit) :
    ∀ (k : Nat) (st : DbState),
      [] ∈ (runCalls ord sess isAi limit now k st).1 →
      qualifying (runCalls ord sess isAi limit now k st).2 sess isAi = [] := by
  intro k
  induction k with
  | zero => intro st h; simp [runCalls] at h
  | succ k ih =>
      intro st hmem
      have hshape : (runCalls ord sess isAi limit now (k + 1) st).1
          = (reserveBatchTrx st sess isAi limit now (ord st)).1
            :: (runCalls ord sess isAi limit now k
                (reserveBatchTrx st sess isAi limit now (ord st)).2).1 := rfl
      rw [hshape, List.mem_cons] at hmem
      have hsnd : (runCalls ord sess isAi limit now (k + 1) st).2
          = (runCalls ord sess isAi limit now k
              (reserveBatchTrx st sess isAi limit now (ord st)).2).2 := rfl
      rcases hmem with hmem | hmem
      · have hq : qualifying st sess isAi = [] :=
          (reserveBatchTrx_empty_iff st sess isAi limit now (ord st) (hord st) hlim).mp
            hmem.symm
        have hnil : ord st = [] := List.Perm.eq_nil (hq ▸ hord st)
        have hC : reserveBatchTrx st sess isAi limit now (ord st) = ([], st) := by
          rw [hnil]; simp [reserveBatchTrx]
        rw [hsnd, hC, runCalls_fixpoint ord sess isAi limit now hord k st hq]
        exact hq
      · rw [hsnd]
        exact ih _ hmem

/-- C1: For every session and category, the ids returned by repeated calls to
the db-backed batch reservation endpoint are pairwise distinct across all
calls; each call selects only active items of the requested kind not already
recorded as seen for the session, marks the returned items seen in the same
transaction, and once a call comes back empty the union of all returned ids
is exactly the set of active catalog ids of that kind.  The `ORDER BY
RANDOM()` outcome of each call is the oracle `ord`, constrained to permute
the qualifying rows; `images.id` is a primary key (`hids`); the session
starts with no ledger rows (`hfresh`); the validated `count` is positive
(`hlim`). -/
theorem C1_batch_reservation_unique_exhaustive (ord : DbState → List ImageRow)
    (sess : Nat) (isAi : Bool) (limit now k : Nat) (st : DbState)
    (hord : ∀ s, (ord s).Perm (qualifying s sess isAi))
    (hlim : 1 ≤ limit)
    (hids : (st.images.map ImageRow.id).Nodup)
    (hfresh : ∀ e ∈ st.seen, e.session_id ≠ sess) :
    (((runCalls ord sess isAi limit now k st).1.flatten.map OutItem.id).Nodup) ∧
    (∀ it ∈ (runCalls ord sess isAi limit now k st).1.flatten,
        it.id ∈ (st.images.filter (fun r => r.active && r.is_ai == isAi)).map
          ImageRow.id) ∧
    (∀ it ∈ (runCalls ord sess isAi limit now k st).1.flatten,
        seenB (runCalls ord sess isAi limit now k st).2 sess it.id = true) ∧
    ([] ∈ (runCalls ord sess isAi limit now k st).1 →
        ∀ r ∈ st.images, r.active = true → r.is_ai = isAi →
          r.id ∈ (runCalls ord sess isAi limit now k st).1.flatten.map OutItem.id) := by
  obtain ⟨hmem, hnodup⟩ := runCalls_flatten_spec ord sess isAi limit now hord k st hids
  refine ⟨hnodup, ?_, ?_, ?_⟩
  · intro it hit
    obtain ⟨r, hrq, hrid⟩ := hmem it hit
    obtain ⟨h1, h2, h3, _⟩ := mem_qualifying.mp hrq
    rw [List.mem_map]
    refine ⟨r, ?_, hrid⟩
    rw [List.mem_filter]
    exact ⟨h1, by rw [h2, h3]; simp⟩
  · intro it hit
    rw [runCalls_seenB]
    have hany : (runCalls ord sess isAi limit now k st).1.flatten.any
        (fun x => x.id == it.id) = true := by
      rw [List.any_eq_true]
      exact ⟨it, hit, beq_self_eq_true it.id⟩
    rw [hany]
    cases seenB st sess it.id <;> rfl
  · intro hempty r hr hact hkind
    have hq := runCalls_exhausted ord sess isAi limit now hord hlim k st hempty
    have hrin : r ∈ (runCalls ord sess isAi limit now k st).2.images := by
      rw [runCalls_images]
      exact hr
    have hseen : seenB (runCalls ord sess isAi limit now k st).2 sess r.id = true := by
      by_contra hcon
      have hfalse : seenB (runCalls ord sess isAi limit now k st).2 sess r.id = false :=
        Bool.not_eq_true _ ▸ (Bool.eq_false_iff.mpr hcon)
      have : r ∈ qualifying (runCalls ord sess isAi limit now k st).2 sess isAi :=
        mem_qualifying.mpr ⟨hrin, hact, hkind, hfalse⟩
      rw [hq] at this
      simp at this
    rw [runCalls_seenB, seenB_of_fresh st sess hfresh r.id, Bool.false_or] at hseen
    rw [List.any_eq_true] at hseen
    obtain ⟨it, hit, hitid⟩ := hseen
    rw [List.mem_map]
    refine ⟨it, hit, ?_⟩
    exact beq_iff_eq.mp hitid

/-- Witness for C1: a catalog of two active AI items, a fresh session `5`,
`count = 1`, three calls: the returned id lists are `[1]`, `[2]`, `[]` —
pairwise distinct, all active AI ids, all marked seen, and the union after
the empty call is the full catalog of that kind. -/
theorem C1_batch_reservation_unique_exhaustive_witness :
    ((((runCalls (fun s => qualifying s 5 true) 5 true 1 0 3
        ⟨[⟨1, "u1", true, true⟩, ⟨2, "u2", true, true⟩], []⟩).1.flatten.map
          OutItem.id).Nodup) ∧
      (∀ it ∈ (runCalls (fun s => qualifying s 5 true) 5 true 1 0 3
          ⟨[⟨1, "u1", true, true⟩, ⟨2, "u2", true, true⟩], []⟩).1.flatten,
          it.id ∈ ((⟨[⟨1, "u1", true, true⟩, ⟨2, "u2", true, true⟩], []⟩ :
              DbState).images.filter (fun r => r.active && r.is_ai == true)).map
            ImageRow.id) ∧
      (∀ it ∈ (runCalls (fun s => qualifying s 5 true) 5 true 1 0 3
          ⟨[⟨1, "u1", true, true⟩, ⟨2, "u2", true, true⟩], []⟩).1.flatten,
          seenB (runCalls (fun s => qualifying s 5 true) 5 true 1 0 3
            ⟨[⟨1, "u1", true, true⟩, ⟨2, "u2", true, true⟩], []⟩).2 5 it.id = true) ∧
      ([] ∈ (runCalls (fun s => qualifying s 5 true) 5 true 1 0 3
          ⟨[⟨1, "u1", true, true⟩, ⟨2, "u2", true, true⟩], []⟩).1 →
          ∀ r ∈ (⟨[⟨1, "u1", true, true⟩, ⟨2, "u2", true, true⟩], []⟩ :
              DbState).images, r.active = true → r.is_ai = true →
            r.id ∈ (runCalls (fun s => qualifying s 5 true) 5 true 1 0 3
              ⟨[⟨1, "u1", true, true⟩, ⟨2, "u2", true, true⟩], []⟩).1.flatten.map
                OutItem.id)) :=
  C1_batch_reservation_unique_exhaustive (fun s => qualifying s 5 true) 5 true 1 0 3
    ⟨[⟨1, "u1", true, true⟩, ⟨2, "u2", true, true⟩], []⟩
    (fun _ => List.Perm.refl _) (by decide) (by decide) (by decide)

/-- The insert loop without failure injection is the plain marking loop. -/
theorem insertLoop_none (sess now : Nat) (rows : List ImageRow) :
    ∀ (idx : Nat) (st : DbState),
      insertLoop sess now none rows idx st
        = .ok (rows.foldl (fun s r => insertSeenOrIgnore s sess r.id now) st) := by
  induction rows with
  | nil => intro idx st; rfl
  | cons r rs ih =>
      intro idx st
      simp [insertLoop, ih]

/-- A transaction body without store failure commits the reservation. -/
theorem trxBody_none (st : DbState) (sess : Nat) (isAi : Bool) (limit now : Nat)
    (order : List ImageRow) :
    trxBody st sess isAi limit now order none
      = .ok (reserveBatchTrx st sess isAi limit now order) := by
  simp [trxBody, insertLoop_none, reserveBatchTrx]

/-- C3 (amended): if a store-level failure occurs during the batch
reservation transaction, the endpoint responds with status 400 — the
catch-all handler `NextResponse.json({...}, { status: 400 })`, not a 5xx —
with an empty item list, and `better-sqlite3` rolls the transaction back so
the database state is exactly the pre-call state: no `image_session_seen`
row persists for an item that was not returned, and an identical retry runs
against an unchanged store. -/
theorem C3_store_failure_rollback_400 (st : DbState) (sess : Nat) (kind : Bool)
    (count now : Nat) (order : List ImageRow) (failAt : Option Nat) (e : String)
    (hfail : trxBody st sess kind count now order failAt = .error e) :
    handleBatchGet st (some (sess, kind, count)) now order failAt = (400, [], st) := by
  simp [handleBatchGet, dbTransaction, hfail]

/-- Witness for C3 (amended): one active AI item, the first
`image_session_seen` insert throws — the endpoint answers `(400, [], st)`
with `st` unchanged. -/
theorem C3_store_failure_rollback_400_witness :
    handleBatchGet ⟨[⟨1, "u1", true, true⟩], []⟩ (some (5, true, 10)) 0
        [⟨1, "u1", true, true⟩] (some 0)
      = (400, [], ⟨[⟨1, "u1", true, true⟩], []⟩) :=
  C3_store_failure_rollback_400 ⟨[⟨1, "u1", true, true⟩], []⟩ 5 true 10 0
    [⟨1, "u1", true, true⟩] (some 0) "SQLITE_ERROR" (by decide)

/-- Counterexample for C3 as stated: on a store failure during the
reservation transaction the endpoint's status is 400, which is not a 5xx
status, contradicting the claimed "responds with a 5xx status". -/
theorem C3_store_failure_status_counterexample :
    (handleBatchGet ⟨[⟨1, "u1", true, true⟩], []⟩ (some (5, true, 10)) 0
        [⟨1, "u1", true, true⟩] (some 0)).1 = 400 ∧
    ¬(500 ≤ (handleBatchGet ⟨[⟨1, "u1", true, true⟩], []⟩ (some (5, true, 10)) 0
          [⟨1, "u1", true, true⟩] (some 0)).1 ∧
      (handleBatchGet ⟨[⟨1, "u1", true, true⟩], []⟩ (some (5, true, 10)) 0
          [⟨1, "u1", true, true⟩] (some 0)).1 < 600) := by
  decide

/-- C4: when the catalog is exhausted for a session/kind the batch
reservation returns fewer than `count` items — including zero — as a normal
successful result: status 200 (never an exception or error status), item
count `min count |qualifying|`, and on full exhaustion an empty item list
with the store untouched. -/
theorem C4_exhaustion_normal_result (st : DbState) (sess : Nat) (kind : Bool)
    (count now : Nat) (order : List ImageRow)
    (horder : order.Perm (qualifying st sess kind)) :
    (handleBatchGet st (some (sess, kind, count)) now order none).1 = 200 ∧
    (handleBatchGet st (some (sess, kind, count)) now order none).2.1.length
      = min count (qualifying st sess kind).length ∧
    (qualifying st sess kind = [] →
        (handleBatchGet st (some (sess, kind, count)) now order none).2.1 = [] ∧
        (handleBatchGet st (some (sess, kind, count)) now order none).2.2 = st) := by
  have hrun : handleBatchGet st (some (sess, kind, count)) now order none
      = (200, reserveBatchTrx st sess kind count now order) := by
    simp [handleBatchGet, dbTransaction, trxBody_none]
  rw [hrun]
  refine ⟨rfl, ?_, ?_⟩
  · simp only [reserveBatchTrx, List.length_map, List.length_take]
    rw [horder.length_eq]
  · intro hq
    have hnil : order = [] := List.Perm.eq_nil (hq ▸ horder)
    subst hnil
    exact ⟨by simp [reserveBatchTrx], by simp [reserveBatchTrx]⟩

/-- Witness for C4: an empty catalog, `count = 10`: the call returns status
200 with zero items and leaves the store unchanged. -/
theorem C4_exhaustion_normal_result_witness :
    (handleBatchGet ⟨[], []⟩ (some (5, true, 10)) 0 [] none).1 = 200 ∧
    (handleBatchGet ⟨[], []⟩ (some (5, true, 10)) 0 [] none).2.1.length
      = min 10 (qualifying ⟨[], []⟩ 5 true).length ∧
    (qualifying ⟨[], []⟩ 5 true = [] →
        (handleBatchGet ⟨[], []⟩ (some (5, true, 10)) 0 [] none).2.1 = [] ∧
        (handleBatchGet ⟨[], []⟩ (some (5, true, 10)) 0 [] none).2.2 = ⟨[], []⟩) :=
  C4_exhaustion_normal_result ⟨[], []⟩ 5 true 10 0 [] (List.Perm.refl _)

/-! ## Dataset resolver lemmas -/

/-- Membership in the stem list accumulated by one side of
`setLeafFolderPath`, generalized over the fold accumulator. -/
theorem collectSide_go_mem (allowed : List String) (files : List String) (n : Nat) :
    ∀ acc : List Nat × List (Nat × String),
      (n ∈ (files.foldl
          (fun acc f =>
            match numFrom f with
            | some (m, e) =>
                if e ∈ allowed then
                  ((if m ∈ acc.1 then acc.1 else acc.1 ++ [m]), recSet acc.2 m e)
                else acc
            | none => acc)
          acc).1)
        ↔ (n ∈ acc.1 ∨ ∃ f ∈ files, ∃ e, numFrom f = some (n, e) ∧ e ∈ allowed) := by
  induction files with
  | nil => intro acc; simp
  | cons f fs ih =>
      intro acc
      rw [List.foldl_cons, ih]
      have hstep : (n ∈ (match numFrom f with
          | some (m, e) =>
              if e ∈ allowed then
                ((if m ∈ acc.1 then acc.1 else acc.1 ++ [m]), recSet acc.2 m e)
              else acc
          | none => acc).1)
          ↔ (n ∈ acc.1 ∨ ∃ e, numFrom f = some (n, e) ∧ e ∈ allowed) := by
        rcases hnf : numFrom f with _ | ⟨m, e⟩
        · simp
        · simp only [hnf, Option.some.injEq, Prod.mk.injEq]
          by_cases he : e ∈ allowed
          · simp only [he, if_true]
            by_cases hm : m ∈ acc.1
            · simp only [hm, if_true]
              constructor
              · intro h
                exact Or.inl h
              · rintro (h | ⟨e', ⟨rfl, rfl⟩, -⟩)
                · exact h
                · exact hm
            · simp only [hm, if_false, List.mem_append, List.mem_singleton]
              constructor
              · rintro (h | rfl)
                · exact Or.inl h
                · exact Or.inr ⟨e, ⟨rfl, rfl⟩, he⟩
              · rintro (h | ⟨e', ⟨rfl, rfl⟩, -⟩)
                · exact Or.inl h
                · exact Or.inr rfl
          · simp only [he, if_false]
            constructor
            · intro h
              exact Or.inl h
            · rintro (h | ⟨e', ⟨rfl, rfl⟩, habs⟩)
              · exact h
              · exact absurd habs he
      rw [hstep]
      constructor
      · intro h
        rcases h with (h | h) | h
        · exact Or.inl h
        · exact Or.inr ⟨f, List.mem_cons_self f fs, h⟩
        · obtain ⟨f', hf', he⟩ := h
          exact Or.inr ⟨f', List.mem_cons_of_mem f hf', he⟩
      · intro h
        rcases h with h | ⟨f', hf', he⟩
        · exact Or.inl (Or.inl h)
        · rcases List.mem_cons.mp hf' with rfl | hf'
          · exact Or.inl (Or.inr he)
          · exact Or.inr ⟨f', hf', he⟩

/-- Membership in the stems collected for one side. -/
theorem mem_collectSide (allowed : List String) (files : List String) (n : Nat) :
    n ∈ (collectSide allowed files).1
      ↔ ∃ f ∈ files, ∃ e, numFrom f = some (n, e) ∧ e ∈ allowed := by
  unfold collectSide
  rw [collectSide_go_mem]
  simp

/-- C5: `derivePairableIds` returns exactly the intersection of the numeric
stems of the two file lists — a stem counts on the AI side with its canonical
`png` extension and on the human side with either whitelisted `jpg`/`jpeg`
extension, so matching is independent of which extension each side uses.
Concretely, for category-A stems `{1,2,3}` and category-B stems `{1,2,4}`
the derived id list is exactly `[1, 2]`, and the one-sided ids `3` and `4`
are silently dropped. -/
theorem C5_derivePairableIds_intersection :
    (∀ (aiList humanList : List String) (n : Nat),
        n ∈ derivePairableIds aiList humanList
          ↔ (∃ f ∈ aiList, ∃ e, numFrom f = some (n, e) ∧ e = "png")
            ∧ (∃ f ∈ humanList, ∃ e, numFrom f = some (n, e) ∧ (e = "jpg" ∨ e = "jpeg"))) ∧
    derivePairableIds ["1.png", "2.png", "3.png"] ["1.jpg", "2.jpeg", "4.jpg"] = [1, 2] ∧
    3 ∉ derivePairableIds ["1.png", "2.png", "3.png"] ["1.jpg", "2.jpeg", "4.jpg"] ∧
    4 ∉ derivePairableIds ["1.png", "2.png", "3.png"] ["1.jpg", "2.jpeg", "4.jpg"] := by
  refine ⟨?_, by decide, by decide, by decide⟩
  intro aiList humanList n
  simp only [derivePairableIds, List.mem_filter, decide_eq_true_eq]
  rw [mem_collectSide, mem_collectSide]
  simp

/-- Witness for C5: the stem-intersection shape evaluated on the concrete
mixed-extension lists. -/
theorem C5_derivePairableIds_intersection_witness :
    derivePairableIds ["1.png", "2.png", "3.png"] ["1.jpg", "2.jpeg", "4.jpg"] = [1, 2] :=
  C5_derivePairableIds_intersection.2.1

/-! ## GameImageManager lemmas -/

/-- Inversion of `Except.map` hitting an `ok` value. -/
theorem exceptMap_eq_ok {ε α β : Type} (f : α → β) (x : Except ε α) (y : β) :
    x.map f = .ok y ↔ ∃ r, x = .ok r ∧ f r = y := by
  cases x <;> simp [Except.map]

/-- Shape of a successful `setLeafFolderPath`: the leaf is installed
(trimmed), the queue is cleared, and the available numbers are the shuffle
of a nonempty pairable-stem list. -/
theorem setLeafFolderPath_ok_shape (fetchDs : String → Option DatasetInfo)
    (shuf : List Nat → List Nat) (st : ManagerState) (leafPath : String)
    (st' : ManagerState)
    (h : setLeafFolderPath fetchDs shuf st leafPath = .ok st') :
    st'.baseLeafPath = some (trimSlashes leafPath) ∧
    st'.preloadPairQueue = [] ∧
    ∃ both : List Nat, st'.availableNumbers = shuf both ∧ both ≠ [] := by
  unfold setLeafFolderPath at h
  cases hf : fetchDs (trimSlashes leafPath) with
  | none =>
      simp only [hf] at h
      exact Except.noConfusion h
  | some data =>
      simp only [hf] at h
      by_cases hboth : ((collectSide ["png"] data.ai_generated).1.filter
          (fun n => n ∈ (collectSide ["jpg", "jpeg"] data.human).1)).isEmpty = true
      · rw [if_pos hboth] at h
        exact absurd h (by simp)
      · rw [if_neg hboth] at h
        injection h with h
        subst h
        refine ⟨rfl, rfl, ⟨_, rfl, ?_⟩⟩
        intro hnil
        rw [hnil] at hboth
        exact hboth rfl

/-- One `getNextPairAsync` step when a leaf is selected and stems remain:
the head stem is consumed and becomes the pair. -/
theorem getNextPairAsync_cons (fetchDs : String → Option DatasetInfo)
    (shuf : List Nat → List Nat) (enc : String → String) (flip : Bool)
    (st : ManagerState) (round : Nat) (leaf : String) (n : Nat) (rest : List Nat)
    (hleaf : st.baseLeafPath = some leaf)
    (havail : st.availableNumbers = n :: rest) :
    getNextPairAsync fetchDs shuf enc flip st round
      = .ok (some (mkPairFrom enc st n round flip),
             { st with availableNumbers := rest }) := by
  obtain ⟨lf, q, av, ax, hx⟩ := st
  dsimp only at hleaf havail
  subst hleaf
  subst havail
  rfl

/-- Inversion of a successful pair-producing `getNextPairAsync` call: the
pair was built by `mkPairFrom` from a state with a selected leaf and a
nonempty stem list, whose head was consumed. -/
theorem getNextPairAsync_ok_some_inv (fetchDs : String → Option DatasetInfo)
    (shuf : List Nat → List Nat) (enc : String → String) (flip : Bool)
    (st : ManagerState) (round : Nat) (pair : GameImagePair) (st' : ManagerState)
    (h : getNextPairAsync fetchDs shuf enc flip st round = .ok (some pair, st')) :
    ∃ (s : ManagerState) (leaf : String) (n : Nat) (rest : List Nat),
      s.baseLeafPath = some leaf ∧ s.availableNumbers = n :: rest ∧
      pair = mkPairFrom enc s n round flip ∧
      st' = { s with availableNumbers := rest } := by
  obtain ⟨lf, q, av, ax, hx⟩ := st
  unfold getNextPairAsync at h
  cases lf with
  | none => simp at h
  | some leaf =>
      cases av with
      | cons n rest =>
          dsimp only at h
          injection h with h
          injection h with h1 h2
          exact ⟨⟨some leaf, q, n :: rest, ax, hx⟩, leaf, n, rest, rfl, rfl,
            Option.some.inj h1.symm, h2.symm⟩
      | nil =>
          dsimp only [List.isEmpty] at h
          cases hset : setLeafFolderPath fetchDs shuf ⟨some leaf, q, [], ax, hx⟩ leaf with
          | error e =>
              rw [hset] at h
              simp at h
          | ok s =>
              rw [hset] at h
              dsimp only at h
              cases hsav : s.availableNumbers with
              | nil =>
                  rw [hsav] at h
                  simp at h
              | cons m ms =>
                  rw [hsav] at h
                  obtain ⟨hsleaf, -, -⟩ :=
                    setLeafFolderPath_ok_shape fetchDs shuf _ leaf s hset
                  dsimp only at h
                  injection h with h
                  injection h with h1 h2
                  exact ⟨s, trimSlashes leaf, m, ms, hsleaf, hsav,
                    Option.some.inj h1.symm, h2.symm⟩

/-- Coherence of the pair built by `mkPairFrom`. -/
theorem mkPairFrom_coherent (enc : String → String) (s : ManagerState)
    (n round : Nat) (flip : Bool) :
    ((mkPairFrom enc s n round flip).aiIndex = 0
      ∨ (mkPairFrom enc s n round flip).aiIndex = 1) ∧
    imgAt (mkPairFrom enc s n round flip) (mkPairFrom enc s n round flip).aiIndex
      = (mkPairFrom enc s n round flip).ai ∧
    imgAt (mkPairFrom enc s n round flip) (1 - (mkPairFrom enc s n round flip).aiIndex)
      = (mkPairFrom enc s n round flip).human ∧
    (mkPairFrom enc s n round flip).ai.isAI = true ∧
    (mkPairFrom enc s n round flip).human.isAI = false ∧
    (mkPairFrom enc s n round flip).images
      = (if (mkPairFrom enc s n round flip).aiIndex = 0
          then ((mkPairFrom enc s n round flip).ai, (mkPairFrom enc s n round flip).human)
          else ((mkPairFrom enc s n round flip).human, (mkPairFrom enc s n round flip).ai)) ∧
    (mkPairFrom enc s n round flip).ai.url
      = buildUrl enc s.baseLeafPath "ai_generated" n ((recLookup s.aiExtByNum n).getD "png") ∧
    (mkPairFrom enc s n round flip).human.url
      = buildUrl enc s.baseLeafPath "human" n ((recLookup s.humanExtByNum n).getD "jpg") ∧
    (mkPairFrom enc s n round flip).ai.id
      = "ai-" ++ toString n ++ "-" ++ toString round ∧
    (mkPairFrom enc s n round flip).human.id
      = "human-" ++ toString n ++ "-" ++ toString round ∧
    (mkPairFrom enc s n round flip).round = round := by
  cases flip <;> simp [mkPairFrom, imgAt]

/-- C10: Every pair produced by `getNextPairAsync` is internally coherent:
`aiIndex` is 0 or 1, `images[aiIndex]` is the AI image (`isAI = true`, URL
under the `ai_generated` segment) and `images[1 - aiIndex]` is the human
image (`isAI = false`, URL under the `human` segment), both images are built
at the same numeric stem `n`, and the pair's `ai`/`human` fields are exactly
the corresponding entries of `images`. -/
theorem C10_pair_coherence (fetchDs : String → Option DatasetInfo)
    (shuf : List Nat → List Nat) (enc : String → String) (flip : Bool)
    (st : ManagerState) (round : Nat) (pair : GameImagePair) (st' : ManagerState)
    (h : getNextPairAsync fetchDs shuf enc flip st round = .ok (some pair, st')) :
    (pair.aiIndex = 0 ∨ pair.aiIndex = 1) ∧
    imgAt pair pair.aiIndex = pair.ai ∧
    imgAt pair (1 - pair.aiIndex) = pair.human ∧
    pair.ai.isAI = true ∧
    pair.human.isAI = false ∧
    pair.images = (if pair.aiIndex = 0 then (pair.ai, pair.human)
                   else (pair.human, pair.ai)) ∧
    (∃ (leaf : String) (n : Nat),
        st'.baseLeafPath = some leaf ∧
        pair.ai.url = buildUrl enc (some leaf) "ai_generated" n
          ((recLookup st'.aiExtByNum n).getD "png") ∧
        pair.human.url = buildUrl enc (some leaf) "human" n
          ((recLookup st'.humanExtByNum n).getD "jpg") ∧
        pair.ai.id = "ai-" ++ toString n ++ "-" ++ toString pair.round ∧
        pair.human.id = "human-" ++ toString n ++ "-" ++ toString pair.round) := by
  obtain ⟨s, leaf, n, rest, hsleaf, hsav, hpair, hst'⟩ :=
    getNextPairAsync_ok_some_inv fetchDs shuf enc flip st round pair st' h
  subst hpair
  subst hst'
  obtain ⟨c1, c2, c3, c4, c5, c6, c7, c8, c9, c10, c11⟩ :=
    mkPairFrom_coherent enc s n round flip
  refine ⟨c1, c2, c3, c4, c5, c6, leaf, n, hsleaf, ?_, ?_, ?_, ?_⟩
  · rw [c7, hsleaf]
  · rw [c8, hsleaf]
  · rw [c9, c11]
  · rw [c10, c11]

/-- Witness for C10: the coherence conclusion evaluated on the pair produced
from the concrete one-stem state `exStateC10`. -/
theorem C10_pair_coherence_witness :
    (exPairC10.aiIndex = 0 ∨ exPairC10.aiIndex = 1) ∧
    imgAt exPairC10 exPairC10.aiIndex = exPairC10.ai ∧
    imgAt exPairC10 (1 - exPairC10.aiIndex) = exPairC10.human ∧
    exPairC10.ai.isAI = true ∧
    exPairC10.human.isAI = false ∧
    exPairC10.images = (if exPairC10.aiIndex = 0 then (exPairC10.ai, exPairC10.human)
                        else (exPairC10.human, exPairC10.ai)) ∧
    (∃ (leaf : String) (n : Nat),
        (⟨some "a", [], [], [(1, "png")], [(1, "jpg")]⟩ : ManagerState).baseLeafPath
          = some leaf ∧
        exPairC10.ai.url = buildUrl id (some leaf) "ai_generated" n
          ((recLookup (⟨some "a", [], [], [(1, "png")], [(1, "jpg")]⟩ :
              ManagerState).aiExtByNum n).getD "png") ∧
        exPairC10.human.url = buildUrl id (some leaf) "human" n
          ((recLookup (⟨some "a", [], [], [(1, "png")], [(1, "jpg")]⟩ :
              ManagerState).humanExtByNum n).getD "jpg") ∧
        exPairC10.ai.id = "ai-" ++ toString n ++ "-" ++ toString exPairC10.round ∧
        exPairC10.human.id = "human-" ++ toString n ++ "-" ++ toString exPairC10.round) :=
  C10_pair_coherence (fun _ => none) id id true exStateC10 1 exPairC10
    ⟨some "a", [], [], [(1, "png")], [(1, "jpg")]⟩ (by decide)

/-- C6 (amended): `getNextPairAsync` resolves to `null` only when no dataset
leaf has been selected — with a selected leaf, exhaustion triggers a
re-derivation that either throws or yields a nonempty stem list, never a
`null` result.  The synchronous `getNextPair`, however, is a bare queue pop:
it returns `null` whenever the preload queue is empty, even with a source
selected. -/
theorem C6_null_only_when_no_source :
    (∀ (fetchDs : String → Option DatasetInfo) (shuf : List Nat → List Nat)
        (enc : String → String) (flip : Bool) (st : ManagerState) (round : Nat)
        (st₂ : ManagerState),
        (∀ l : List Nat, (shuf l).Perm l) →
        getNextPairAsync fetchDs shuf enc flip st round = .ok (none, st₂) →
        st.baseLeafPath = none) ∧
    (∀ st : ManagerState, st.preloadPairQueue = [] → getNextPair st = (none, st)) := by
  constructor
  · intro fetchDs shuf enc flip st round st₂ hshuf h
    obtain ⟨lf, q, av, ax, hx⟩ := st
    cases lf with
    | none => rfl
    | some leaf =>
        exfalso
        unfold getNextPairAsync at h
        cases av with
        | cons n rest => dsimp only at h; simp at h
        | nil =>
            dsimp only [List.isEmpty] at h
            cases hset : setLeafFolderPath fetchDs shuf ⟨some leaf, q, [], ax, hx⟩ leaf with
            | error e => rw [hset] at h; simp at h
            | ok s =>
                rw [hset] at h
                dsimp only at h
                obtain ⟨-, -, both, hboth, hne⟩ :=
                  setLeafFolderPath_ok_shape fetchDs shuf _ leaf s hset
                have hperm := hshuf both
                have hsne : s.availableNumbers ≠ [] := by
                  rw [hboth]
                  intro hnil
                  exact hne (List.Perm.eq_nil (hnil ▸ hperm).symm)
                obtain ⟨m, ms, hcons⟩ := List.exists_cons_of_ne_nil hsne
                rw [hcons] at h
                simp at h
  · intro st h
    unfold getNextPair
    rw [h]

/-- Witness for C6 (amended): both conclusions at concrete states — a
leafless manager yields `null` from `getNextPairAsync`, and an empty-queue
manager yields `null` from `getNextPair`. -/
theorem C6_null_only_when_no_source_witness :
    (⟨none, [], [], [], []⟩ : ManagerState).baseLeafPath = none ∧
    getNextPair ⟨none, [], [], [], []⟩ = (none, ⟨none, [], [], [], []⟩) :=
  ⟨C6_null_only_when_no_source.1 (fun _ => none) id id true
      ⟨none, [], [], [], []⟩ 1 ⟨none, [], [], [], []⟩ (fun l => List.Perm.refl l)
      (by decide),
   C6_null_only_when_no_source.2 ⟨none, [], [], [], []⟩ rfl⟩

/-- Counterexample for C6 as stated: with a source selected
(`baseLeafPath = some "a/b"`) and an empty preload queue, the synchronous
`getNextPair` returns `null`, so `null` is not reserved for the
"no source selected" caller error. -/
theorem C6_sync_null_with_source_counterexample :
    getNextPair ⟨some "a/b", [], [3], [], []⟩ = (none, ⟨some "a/b", [], [3], [], []⟩) ∧
    (⟨some "a/b", [], [3], [], []⟩ : ManagerState).baseLeafPath ≠ none := by
  decide

/-- C2 (amended): within one derivation epoch — as long as the id list
derived from the leaf is not exhausted, so no re-derivation occurs — a
sequence of `k` `getNextPairAsync` calls consumes the first `k` entries of
the duplicate-free stem list in order: the `i`-th returned pair is built on
the `i`-th stem, the stems used are pairwise distinct, and `k` stems remain
consumed afterwards.  (After exhaustion the code re-derives the leaf and
reshuffles the full list, so stems may then repeat; see the
counterexample.) -/
theorem C2_no_repeat_between_rederivations (fetchDs : String → Option DatasetInfo)
    (shuf : List Nat → List Nat) (enc : String → String) (flips : Nat → Bool)
    (rounds : Nat → Nat) (i k : Nat) (st : ManagerState) (leaf : String)
    (hleaf : st.baseLeafPath = some leaf)
    (hnd : st.availableNumbers.Nodup)
    (hk : k ≤ st.availableNumbers.length) :
    (runNext fetchDs shuf enc flips rounds i k st).map
        (fun r => (r.1.map (fun p => p.ai.url), r.2.availableNumbers, r.2.baseLeafPath))
      = .ok ((st.availableNumbers.take k).map
            (fun n => buildUrl enc (some leaf) "ai_generated" n
              ((recLookup st.aiExtByNum n).getD "png")),
          st.availableNumbers.drop k, some leaf) ∧
    (st.availableNumbers.take k).Nodup := by
  induction k generalizing i st with
  | zero =>
      refine ⟨?_, by simp⟩
      simp [runNext, Except.map, hleaf]
  | succ k ih =>
      cases havail : st.availableNumbers with
      | nil =>
          rw [havail] at hk
          simp at hk
      | cons n rest =>
          have hstep := getNextPairAsync_cons fetchDs shuf enc (flips i) st (rounds i)
            leaf n rest hleaf havail
          have hrn : runNext fetchDs shuf enc flips rounds i (k + 1) st
              = (match getNextPairAsync fetchDs shuf enc (flips i) st (rounds i) with
                 | .error e => .error e
                 | .ok c =>
                     match runNext fetchDs shuf enc flips rounds (i + 1) k c.2 with
                     | .error e => .error e
                     | .ok r => .ok (c.1.toList ++ r.1, r.2)) := rfl
          obtain ⟨hnotin, hndrest⟩ := List.nodup_cons.mp (havail ▸ hnd)
          have hk1 : k ≤ rest.length := by
            rw [havail] at hk
            simpa using Nat.le_of_succ_le_succ hk
          obtain ⟨ih1, ih2⟩ := ih (i + 1) { st with availableNumbers := rest }
            hleaf hndrest hk1
          obtain ⟨⟨prs, stf⟩, hrun, hproj⟩ := (exceptMap_eq_ok _ _ _).mp ih1
          have hp1 : prs.map (fun p => p.ai.url)
              = (rest.take k).map (fun m => buildUrl enc (some leaf) "ai_generated" m
                  ((recLookup st.aiExtByNum m).getD "png")) := congrArg Prod.fst hproj
          have hp2 : stf.availableNumbers = rest.drop k :=
            congrArg (fun x => x.2.1) hproj
          have hp3 : stf.baseLeafPath = some leaf :=
            congrArg (fun x => x.2.2) hproj
          have hurl : (mkPairFrom enc st n (rounds i) (flips i)).ai.url
              = buildUrl enc (some leaf) "ai_generated" n
                  ((recLookup st.aiExtByNum n).getD "png") := by
            have c7 := (mkPairFrom_coherent enc st n (rounds i) (flips i)).2.2.2.2.2.2.1
            rw [c7, hleaf]
          constructor
          · rw [hrn, hstep]
            dsimp only
            rw [hrun]
            dsimp only [Except.map, Option.toList, List.singleton_append]
            rw [List.take_succ_cons, List.drop_succ_cons, List.map_cons,
              List.map_cons, hurl, hp1, hp2, hp3]
          · rw [List.take_succ_cons]
            refine List.nodup_cons.mpr ⟨?_, ih2⟩
            intro hmem
            exact hnotin (List.take_subset _ _ hmem)

/-- Witness for C2 (amended): from a two-stem state, two calls return the
two distinct stems in order and exhaust the list. -/
theorem C2_no_repeat_between_rederivations_witness :
    ((runNext exFetchC2 id id (fun _ => true) (fun j => j + 1) 0 2
        ⟨some "a", [], [1, 2], [(1, "png"), (2, "png")],
          [(1, "jpg"), (2, "jpg")]⟩).map
        (fun r => (r.1.map (fun p => p.ai.url), r.2.availableNumbers, r.2.baseLeafPath))
      = .ok ((([1, 2] : List Nat).take 2).map
            (fun n => buildUrl id (some "a") "ai_generated" n
              ((recLookup [(1, "png"), (2, "png")] n).getD "png")),
          ([1, 2] : List Nat).drop 2, some "a")) ∧
    (([1, 2] : List Nat).take 2).Nodup :=
  C2_no_repeat_between_rederivations exFetchC2 id id (fun _ => true) (fun j => j + 1)
    0 2 ⟨some "a", [], [1, 2], [(1, "png"), (2, "png")], [(1, "jpg"), (2, "jpg")]⟩
    "a" rfl (by decide) (by decide)

/-- Counterexample for C2 as stated: with a single pairable stem, the second
call in the same playthrough exhausts the list, re-derives the same leaf and
returns the same numbered pair again — both calls deliver the pair with AI
URL `/data_set/a/ai_generated/1.png` (stem 1), so a numbered pair can repeat
within one playthrough. -/
theorem C2_same_pair_twice_counterexample :
    (runNext exFetchC2 id id (fun _ => true) (fun j => j + 1) 0 2 exStateC2).map
        (fun r => r.1.map (fun p => p.ai.url))
      = .ok ["/data_set/a/ai_generated/1.png", "/data_set/a/ai_generated/1.png"] := by
  decide

/-! ## Path-resolution lemmas -/

/-- The common prefix is no longer than the left path. -/
theorem commonPrefixLen_le_left (a : List String) :
    ∀ b : List String, commonPrefixLen a b ≤ a.length := by
  induction a with
  | nil =>
      intro b
      cases b <;> simp [commonPrefixLen]
  | cons x xs ih =>
      intro b
      cases b with
      | nil => simp [commonPrefixLen]
      | cons y ys =>
          simp only [commonPrefixLen, List.length_cons]
          split
          · exact Nat.succ_le_succ (ih ys)
          · exact Nat.zero_le _

/-- The common prefix spans the whole left path exactly when it is a list
prefix of the right one. -/
theorem commonPrefixLen_eq_length_iff (a : List String) :
    ∀ b : List String, commonPrefixLen a b = a.length ↔ a <+: b := by
  induction a with
  | nil =>
      intro b
      cases b <;> simp [commonPrefixLen]
  | cons x xs ih =>
      intro b
      cases b with
      | nil =>
          simp only [commonPrefixLen, List.length_cons]
          constructor
          · intro h
            omega
          · intro h
            obtain ⟨t, ht⟩ := h
            exact List.noConfusion ht
      | cons y ys =>
          simp only [commonPrefixLen, List.length_cons, List.cons_prefix_cons]
          by_cases hxy : x = y
          · rw [if_pos hxy]
            constructor
            · intro h
              exact ⟨hxy, (ih ys).mp (by omega)⟩
            · rintro ⟨-, h⟩
              have := (ih ys).mpr h
              omega
          · rw [if_neg hxy]
            constructor
            · intro h
              omega
            · rintro ⟨h, -⟩
              exact absurd h hxy

/-- When the normalized path is not under the root, the computed relative
path starts with a `..` climb segment, so the route's traversal check
fires. -/
theorem not_prefix_relStarts (root p : List String) (h : ¬ root <+: p) :
    relStartsWithDotDot (relativeSegs root p) = true := by
  have hle := commonPrefixLen_le_left root p
  have hne : commonPrefixLen root p ≠ root.length :=
    fun he => h ((commonPrefixLen_eq_length_iff root p).mp he)
  obtain ⟨m, hm⟩ : ∃ m, root.length - commonPrefixLen root p = m + 1 :=
    ⟨root.length - commonPrefixLen root p - 1, by omega⟩
  simp only [relativeSegs]
  rw [hm, List.replicate_succ, List.cons_append]
  rfl

/-- Soundness: an accepted `safeJoin` result stays under the root. -/
theorem safeJoin_ok_under_root (root parts p : List String)
    (h : safeJoin root parts = .ok p) : root <+: p := by
  unfold safeJoin at h
  by_cases hchk : relStartsWithDotDot (relativeSegs root (normJoin root parts)) = true
  · rw [if_pos hchk] at h
    exact Except.noConfusion h
  · rw [if_neg hchk] at h
    injection h with h
    subst h
    by_contra hpre
    exact hchk (not_prefix_relStarts _ _ hpre)

/-- Completeness: a join that would escape the root is rejected. -/
theorem safeJoin_escape_error (root parts : List String)
    (h : ¬ root <+: normJoin root parts) :
    safeJoin root parts = .error "Invalid path" := by
  unfold safeJoin
  rw [if_pos (not_prefix_relStarts _ _ h)]

/-- C7: The dataset leaf resolver resolves strictly inside the fixed content
root: whenever the route's base resolution succeeds, the resolved directory
— and every subdirectory the handler goes on to list (`ai_generated`,
`human`, `meta_data`, `meta`) — lies under the root, and any request path
whose normalized join escapes the root is rejected as invalid input
(`Invalid path`), so no file outside the root is ever read or listed. -/
theorem C7_dataset_path_confined (root : List String) (reqPath : String) :
    (∀ p, resolveBase root reqPath = .ok p →
        root <+: p ∧ root <+: p ++ ["ai_generated"] ∧ root <+: p ++ ["human"] ∧
        root <+: p ++ ["meta_data"] ∧ root <+: p ++ ["meta"]) ∧
    (¬(root <+: normJoin root (splitPath (trimSlashes reqPath))) →
        resolveBase root reqPath = .error "Invalid path") := by
  constructor
  · intro p h
    unfold resolveBase at h
    have hroot : root <+: p := by
      by_cases ht : trimSlashes reqPath = ""
      · rw [if_pos ht] at h
        injection h with h
        subst h
        exact ⟨[], List.append_nil _⟩
      · rw [if_neg ht] at h
        exact safeJoin_ok_under_root _ _ _ h
    exact ⟨hroot, hroot.trans ⟨_, rfl⟩,
      hroot.trans ⟨_, rfl⟩, hroot.trans ⟨_, rfl⟩,
      hroot.trans ⟨_, rfl⟩⟩
  · intro hesc
    unfold resolveBase
    by_cases ht : trimSlashes reqPath = ""
    · exfalso
      apply hesc
      rw [ht]
      show root <+: normJoin root (splitPath "")
      have hid : normJoin root (splitPath "") = root := rfl
      rw [hid]
    · rw [if_neg ht]
      exact safeJoin_escape_error _ _ hesc

/-- Witness for C7: a benign leaf path resolves inside the root (and so do
the listed subfolders), while a traversal attempt is rejected. -/
theorem C7_dataset_path_confined_witness :
    (["srv", "data_set"] <+: ["srv", "data_set", "classic", "oil"] ∧
     ["srv", "data_set"] <+: ["srv", "data_set", "classic", "oil"] ++ ["ai_generated"] ∧
     ["srv", "data_set"] <+: ["srv", "data_set", "classic", "oil"] ++ ["human"] ∧
     ["srv", "data_set"] <+: ["srv", "data_set", "classic", "oil"] ++ ["meta_data"] ∧
     ["srv", "data_set"] <+: ["srv", "data_set", "classic", "oil"] ++ ["meta"]) ∧
    resolveBase ["srv", "data_set"] "../../etc/passwd" = .error "Invalid path" :=
  ⟨(C7_dataset_path_confined ["srv", "data_set"] "classic/oil").1
      ["srv", "data_set", "classic", "oil"] (by decide),
   (C7_dataset_path_confined ["srv", "data_set"] "../../etc/passwd").2 (by decide)⟩

/-! ## PreloadScheduler theorems -/

/-- C9: `warm` always resolves and never rejects — it is a total function
returning one settled outcome per URL; a probe gives up only when both the
original URL and its effect-stripped retry fail to load (the retry happens
exactly once, on the stripped URL); and for a batch of three URLs of which
one always fails (also after stripping), the aggregate resolves and the
queue grows by exactly the two successful entries.  Modelled from the spec
(§4.5): the implementation of `PreloadScheduler.warm` is not in the provided
sources, and the per-probe wall-clock timeout is abstracted into the load
oracle `loads`. -/
theorem C9_warm_soft_failure (loads : String → Bool) (urls : List String)
    (u u₁ u₂ u₃ : String) :
    (warm loads urls).length = urls.length ∧
    (probe loads u = .gaveUp ↔ (loads u = false ∧ loads (stripEffects u) = false)) ∧
    (loads u₁ = true → loads u₂ = true → loads u₃ = false →
      loads (stripEffects u₃) = false →
      warmQueueGrowth (warm loads [u₁, u₂, u₃]) = 2) := by
  refine ⟨List.length_map _ _, ?_, ?_⟩
  · unfold probe
    cases h1 : loads u with
    | true => simp
    | false =>
        cases h2 : loads (stripEffects u) with
        | true => simp
        | false => simp
  · intro h1 h2 h3 h4
    simp [warm, warmQueueGrowth, probe, h1, h2, h3, h4]

/-- Witness for C9: the load oracle fails exactly on `"bad"`; the batch
`["a", "b", "bad"]` settles with queue growth 2, and the failing probe's
give-up is characterized. -/
theorem C9_warm_soft_failure_witness :
    (warm (fun s => !(s == "bad")) ["a", "b", "bad"]).length
      = (["a", "b", "bad"] : List String).length ∧
    (probe (fun s => !(s == "bad")) "bad?blur=2" = .gaveUp
      ↔ ((fun s : String => !(s == "bad")) "bad?blur=2" = false ∧
         (fun s : String => !(s == "bad")) (stripEffects "bad?blur=2") = false)) ∧
    warmQueueGrowth (warm (fun s => !(s == "bad")) ["a", "b", "bad"]) = 2 :=
  ⟨(C9_warm_soft_failure (fun s => !(s == "bad")) ["a", "b", "bad"]
      "bad?blur=2" "a" "b" "bad").1,
   (C9_warm_soft_failure (fun s => !(s == "bad")) ["a", "b", "bad"]
      "bad?blur=2" "a" "b" "bad").2.1,
   (C9_warm_soft_failure (fun s => !(s == "bad")) ["a", "b", "bad"]
      "bad?blur=2" "a" "b" "bad").2.2 (by decide) (by decide) (by decide) (by decide)⟩

/-- C8: The difficulty tier function is pure and deterministic over the round
number with fixed breakpoints: `tierFor(1)=easy`, `tierFor(4)=medium`,
`tierFor(7)=hard`, `tierFor(10)=extreme`; rounds 1-3 are easy, 4-6 medium,
7-9 hard, and 10 and above extreme.  Purity holds by construction: the
embedding is a function of `round` only, so it cannot depend on mutable
state. -/
theorem C8_difficulty_breakpoints :
    getDifficultyForRound 1 = .easy ∧
    getDifficultyForRound 4 = .medium ∧
    getDifficultyForRound 7 = .hard ∧
    getDifficultyForRound 10 = .extreme ∧
    (∀ r : Nat, 1 ≤ r → r ≤ 3 → getDifficultyForRound r = .easy) ∧
    (∀ r : Nat, 4 ≤ r → r ≤ 6 → getDifficultyForRound r = .medium) ∧
    (∀ r : Nat, 7 ≤ r → r ≤ 9 → getDifficultyForRound r = .hard) ∧
    (∀ r : Nat, 10 ≤ r → getDifficultyForRound r = .extreme) := by
  refine ⟨rfl, rfl, rfl, rfl, ?_, ?_, ?_, ?_⟩
  · intro r _ h3
    simp [getDifficultyForRound, h3]
  · intro r h4 h6
    simp [getDifficultyForRound, h6, Nat.not_le.mpr (by omega : 3 < r)]
  · intro r h7 h9
    simp [getDifficultyForRound, h9, Nat.not_le.mpr (by omega : 3 < r),
      Nat.not_le.mpr (by omega : 6 < r)]
  · intro r h10
    simp [getDifficultyForRound, Nat.not_le.mpr (by omega : 3 < r),
      Nat.not_le.mpr (by omega : 6 < r), Nat.not_le.mpr (by omega : 9 < r)]

/-- Witness for C8: the breakpoint clauses applied at round 2 and round 12. -/
theorem C8_difficulty_breakpoints_witness :
    getDifficultyForRound 2 = .easy ∧ getDifficultyForRound 12 = .extreme :=
  ⟨C8_difficulty_breakpoints.2.2.2.2.1 2 (by decide) (by decide),
   C8_difficulty_breakpoints.2.2.2.2.2.2.2 12 (by decide)⟩

end HumanVsAi
